import Mathlib

/-!
# libmtp `examples/detect.c`: a shallow embedding

The file embeds the two routines of `src/examples/detect.c`:

* `dump_xml_fragment` (lines 31-56), the byte-order-aware fragment decoder with
  its function-static `endianness`, threaded here as an explicit state;
* `main` (lines 58-238), the session walker, as a function from the answers of
  the Device Service and of the C library to the trace of calls it issues and
  the process exit status.

Machine integers are natural numbers reduced modulo `2 ^ w` where the width
matters; a `uint8_t` is an element of `Fin 256`.
-/

namespace Detect

/-! ## Machine integers -/

/-- A `uint8_t` value. -/
abbrev Byte := Fin 256

/-- The modulus of `uint32_t` arithmetic. -/
abbrev U32 : Nat := 4294967296

/-- The modulus of `uint16_t` arithmetic. -/
abbrev U16 : Nat := 65536

/-- Conversion to `uint8_t`: the low 8 bits. -/
def toU8 (n : Nat) : Byte := ⟨n % 256, Nat.mod_lt n (by decide)⟩

/-- Conversion of an `int`/`ssize_t` value to `uint32_t`. -/
def toU32 (z : Int) : Nat := (z % 4294967296).toNat

/-- `#define XML_BUFSIZE 0x10000` (line 29). -/
def XML_BUFSIZE : Nat := 0x10000

/-! ## The fragment decoder, `dump_xml_fragment` (lines 31-56) -/

/-- The values of `static int endianness` (line 33): `0 = LE`, `1 = BE`. -/
inductive Endian
  | LE
  | BE
  deriving DecidableEq, Repr

/-- The `uint16_t tmp` of lines 42-48: `buf[bp+1] << 8 | buf[bp+0]` when the
endianness is `0`, `buf[bp+0] << 8 | buf[bp+1]` otherwise. -/
def assemble (e : Endian) (b0 b1 : Byte) : Nat :=
  match e with
  | Endian.LE => ((b1.val <<< 8) ||| b0.val) % U16
  | Endian.BE => ((b0.val <<< 8) ||| b1.val) % U16

/-- The byte `printf("\n")` writes. -/
def newline : Byte := 10

/-- The `while (bp < len)` loop of lines 36-54. `buf` is the storage the pointer
addresses (all of it, not only the first `len` bytes), `bp` the `uint32_t`
cursor, `e` the static endianness and `out` the bytes written so far. One unit
of fuel is spent per evaluation of the loop condition; the result is the
endianness left in the static variable and everything written, the final
newline of line 55 included. -/
def dumpLoop (buf : Nat → Byte) (len : Nat) :
    Nat → Nat → Endian → List Byte → Option (Endian × List Byte)
  | 0, _, _, _ => none
  | fuel + 1, bp, e, out =>
    if bp < len then
      if buf ((bp + 0) % U32) = 0xFF ∧ buf ((bp + 1) % U32) = 0xFE then
        dumpLoop buf len fuel ((bp + 2) % U32) Endian.LE out
      else if buf ((bp + 0) % U32) = 0xFE ∧ buf ((bp + 1) % U32) = 0xFF then
        dumpLoop buf len fuel ((bp + 2) % U32) Endian.BE out
      else
        dumpLoop buf len fuel ((bp + 2) % U32) e
          (out ++ [toU8 (assemble e (buf ((bp + 0) % U32)) (buf ((bp + 1) % U32)))])
    else
      some (e, out ++ [newline])

/-- The call `dump_xml_fragment(buf, len)` entered with the static endianness
`e`: the cursor starts at `0` with nothing written. -/
def dump_xml_fragment (fuel : Nat) (buf : Nat → Byte) (len : Nat) (e : Endian) :
    Option (Endian × List Byte) :=
  dumpLoop buf len fuel 0 e []

/-- Storage whose first bytes are those of `l`; the bytes beyond are `0`. -/
def bufOf (l : List Byte) : Nat → Byte := fun i => l.getD i 0

/-! ### The decoder as the specification words it -/

/-- The reference decoder of the specification: walk the buffer in 2-byte units;
`(0xFF, 0xFE)` selects little-endian and emits nothing, `(0xFE, 0xFF)` selects
big-endian and emits nothing, any other unit emits its first byte in
little-endian and its second byte in big-endian. -/
def refDecode : Endian → List Byte → Endian × List Byte
  | e, a :: b :: rest =>
    if a = 0xFF ∧ b = 0xFE then refDecode Endian.LE rest
    else if a = 0xFE ∧ b = 0xFF then refDecode Endian.BE rest
    else
      ((refDecode e rest).1,
        (match e with
          | Endian.LE => a
          | Endian.BE => b) :: (refDecode e rest).2)
  | e, _ => (e, [])

/-- The endianness named by the last byte-order-mark unit of a buffer, when it
holds one. -/
def lastBom : List Byte → Option Endian
  | a :: b :: rest =>
    match lastBom rest with
    | some e => some e
    | none =>
      if a = 0xFF ∧ b = 0xFE then some Endian.LE
      else if a = 0xFE ∧ b = 0xFF then some Endian.BE
      else none
  | _ => none

/-! ## The battery percentage (lines 148-149) -/

/-- A finite non-negative binary floating-point value, `mant / 2 ^ scale`. -/
structure Dyadic where
  mant : Nat
  scale : Nat
  deriving DecidableEq, Repr

/-- Upward search, from `k`, for the least binary scale at which the quotient
`a / b` has a 24-bit significand: the least `k` with `2 ^ 23 ≤ a * 2 ^ k / b`. -/
def normShiftFrom (a b : Nat) : Nat → Nat → Nat
  | 0, k => k
  | fuel + 1, k => if b * 2 ^ 23 ≤ a * 2 ^ k then k else normShiftFrom a b fuel (k + 1)

/-- The scale of the binary32 quotient of two `uint8_t` values `a ≥ 1`, `b ≥ 1`:
it lies between 16 and 31. -/
def normShift (a b : Nat) : Nat := normShiftFrom a b 31 0

/-- The expression `(float) a / (float) b` for `uint8_t` operands with `b ≠ 0`,
in IEEE 754 binary32 evaluated in its own format with round-to-nearest-even:
both conversions are exact, and the quotient is rounded to a 24-bit significand
(remainder below half: down; above half: up; exactly half: to the even
significand). The quotient lies between `1 / 255` and `255`, in the normal
range. -/
def f32_div (a b : Nat) : Dyadic :=
  if a = 0 then ⟨0, 0⟩
  else
    let k := normShift a b
    let q := a * 2 ^ k / b
    let r := a * 2 ^ k % b
    ⟨if 2 * r < b then q else if 2 * r = b then q + q % 2 else q + 1, k⟩

/-- The expression `x * 100.0` in binary64 for a binary32 value `x`: the
significand of `x` is below `2 ^ 25`, the product's is below `2 ^ 53`, so the
product is representable and no rounding takes place. -/
def f64_mul100 (x : Dyadic) : Dyadic := ⟨x.mant * 100, x.scale⟩

/-- The conversion `(int)` of a non-negative floating-point value: truncation
toward zero. -/
def truncToInt (x : Dyadic) : Nat := x.mant / 2 ^ x.scale

/-- The third argument of the `printf` of lines 148-149,
`(int) ((float) currbattlevel / (float) maxbattlevel * 100.0)`. With
`maxbattlevel = 0` the quotient is an infinity or a NaN, whose conversion to
`int` the C language leaves undefined: `none`. -/
def battery_percent (currbattlevel maxbattlevel : Byte) : Option Nat :=
  if maxbattlevel.val = 0 then none
  else some (truncToInt (f64_mul100 (f32_div currbattlevel.val maxbattlevel.val)))

/-- The specification's `round(current / max * 100)`: the nearest integer to the
exact quotient, halves upward. -/
def roundPercent (current max : Nat) : Nat := (200 * current + max) / (2 * max)

/-! ## The session walker, `main` (lines 58-238) -/

/-- Modelled from the spec: the opaque handle of one connected device
(`LIBMTP_mtpdevice_t`, declared in `libmtp.h`, which is not among the sources);
the list the `next` fields link is a `List DeviceHandle` in arrival order. -/
abbrev DeviceHandle := Nat

/-- Modelled from the spec: a file record (`LIBMTP_file_t`, declared in
`libmtp.h`, which is not among the sources) with the two fields the walker
reads, the `uint32_t item_id` and the `filename`, a string as the specification
has it (never `NULL`); the listing the `next` fields link is a
`List FileRecord`. -/
structure FileRecord where
  item_id : Nat
  filename : String
  deriving DecidableEq, Repr

/-- What the walker writes to `stdout` and `stderr`, one constructor per
`printf`/`fprintf` of `main`, carrying the values formatted. -/
inductive Output
  | detected (vid pid : Nat)
  | attempting
  | noDevices
  | errConnecting
  | errMemory
  | errUnknown
  | connected
  | propertiesHeader
  | friendlyName (s : Option String)
  | syncPartner (s : Option String)
  | battery (curr max : Byte) (percent : Option Nat)
  | filetypesHeader
  | filetype (code : Nat)
  | secureTime (s : String)
  | deviceCertificate (s : String)
  | xmlHeader
  | xml (bytes : List Byte)
  | allocFailed
  | ok
  deriving DecidableEq, Repr

/-- The observable actions of `main`: the calls into libmtp (with the device or
record they are issued against), the call of the decoder, and the output. -/
inductive Event
  | Init
  | Detect_Descriptor
  | Get_Connected_Devices
  | Dump_Errorstack (device : DeviceHandle)
  | Clear_Errorstack (device : DeviceHandle)
  | Dump_Device_Info (device : DeviceHandle)
  | Get_Friendlyname (device : DeviceHandle)
  | Get_Syncpartner (device : DeviceHandle)
  | Get_Batterylevel (device : DeviceHandle)
  | Get_Supported_Filetypes (device : DeviceHandle)
  | Get_Secure_Time (device : DeviceHandle)
  | Get_Device_Certificate (device : DeviceHandle)
  | Get_Filelisting (device : DeviceHandle)
  | destroy_file (file : FileRecord)
  | Get_Track_To_File_Descriptor (device : DeviceHandle) (id : Nat) (fd : Int)
  | dump_xml_fragment (len : Nat)
  | Release_Device_List (device : Option DeviceHandle)
  | print (o : Output)
  deriving DecidableEq, Repr

/-- The answers the Device Service and the C library give during one execution
of the loop body, in the order the body asks for them. -/
structure Answers where
  /-- `LIBMTP_Get_Friendlyname`: the string, or `NULL`. -/
  friendlyname : Option String
  /-- `LIBMTP_Get_Syncpartner`: the string, or `NULL`. -/
  syncpartner : Option String
  /-- `LIBMTP_Get_Batterylevel`: the return value and the two levels stored. -/
  battRet : Int
  maxbattlevel : Byte
  currbattlevel : Byte
  /-- `LIBMTP_Get_Supported_Filetypes`: the return value and the codes stored. -/
  filetypesRet : Int
  filetypes : List Nat
  /-- `LIBMTP_Get_Secure_Time`: the return value and the string stored. -/
  sectimeRet : Int
  sectime : Option String
  /-- `LIBMTP_Get_Device_Certificate`: the return value and the string stored. -/
  devcertRet : Int
  devcert : Option String
  /-- `LIBMTP_Get_Filelisting_With_Callback`: the linked records, `NULL` being `[]`. -/
  files : List FileRecord
  /-- Whether `tmpfile()` returns a stream (`false`: it returns `NULL`). -/
  tmpfileOk : Bool
  /-- The value of `fileno(xmltmp)` for a stream `tmpfile()` returned. -/
  tmpfd : Int
  /-- `LIBMTP_Get_Track_To_File_Descriptor`: the return value. -/
  trackRet : Int
  /-- Whether `malloc(XML_BUFSIZE)` returns a buffer. -/
  mallocOk : Bool
  /-- The return value of `read` (an `ssize_t`). -/
  readRet : Int
  /-- The content of the buffer's storage after `read`. -/
  buf : Nat → Byte

/-- The variables of `main` that live across loop iterations, the static
variable of the decoder, and the actions so far. -/
structure State where
  xmlfileid : Nat
  endianness : Endian
  trace : List Event
  deriving DecidableEq, Repr

/-- Append actions to the trace. -/
def State.log (s : State) (es : List Event) : State :=
  { s with trace := s.trace ++ es }

/-- How a piece of `main` ends: control reaches the next statement, the process
exits with a status, a loop never ends, or the process is killed at an invalid
memory access and has no exit status of its own. -/
inductive Flow
  | next (s : State)
  | exit (code : Nat) (s : State)
  | hang (s : State)
  | crash (s : State)
  deriving DecidableEq, Repr

/-- The state a piece of `main` ends in. -/
def Flow.state : Flow → State
  | Flow.next s => s
  | Flow.exit _ s => s
  | Flow.hang s => s
  | Flow.crash s => s

/-- Lines 129-143: the friendly name and the synchronization partner. -/
def namesStep (device : DeviceHandle) (a : Answers) : List Event :=
  [Event.print Output.propertiesHeader,
   Event.Get_Friendlyname device, Event.print (Output.friendlyName a.friendlyname),
   Event.Get_Syncpartner device, Event.print (Output.syncPartner a.syncpartner)]

/-- Lines 145-154: the battery probe. -/
def batteryStep (device : DeviceHandle) (a : Answers) : List Event :=
  Event.Get_Batterylevel device ::
    (if a.battRet = 0 then
      [Event.print (Output.battery a.currbattlevel a.maxbattlevel
        (battery_percent a.currbattlevel a.maxbattlevel))]
    else
      [Event.Clear_Errorstack device])

/-- Lines 156-167: the supported file types; the `uint16_t` counter visits the
codes stored. -/
def filetypesStep (device : DeviceHandle) (a : Answers) : List Event :=
  Event.Get_Supported_Filetypes device ::
    (if a.filetypesRet = 0 then
      Event.print Output.filetypesHeader ::
        a.filetypes.map (fun c => Event.print (Output.filetype c))
    else
      [Event.Dump_Errorstack device, Event.Clear_Errorstack device])

/-- Lines 169-177: the secure time fragment. -/
def secureTimeStep (device : DeviceHandle) (a : Answers) : List Event :=
  Event.Get_Secure_Time device ::
    (match a.sectimeRet, a.sectime with
      | 0, some t => [Event.print (Output.secureTime t)]
      | _, _ => [Event.Clear_Errorstack device])

/-- Lines 179-187: the device certificate fragment. -/
def certificateStep (device : DeviceHandle) (a : Answers) : List Event :=
  Event.Get_Device_Certificate device ::
    (match a.devcertRet, a.devcert with
      | 0, some c => [Event.print (Output.deviceCertificate c)]
      | _, _ => [Event.Clear_Errorstack device])

/-- The `while (file != NULL)` loop of lines 194-201: `id` is `xmlfileid`, `tr`
the release calls issued so far. -/
def scanFiles : List FileRecord → Nat → List Event → Nat × List Event
  | [], id, tr => (id, tr)
  | file :: next, id, tr =>
    scanFiles next (if file.filename = "WMPInfo.xml" then file.item_id else id)
      (tr ++ [Event.destroy_file file])

/-- Lines 189-202: the file listing and its scan. -/
def listingStep (device : DeviceHandle) (a : Answers) (s : State) : State :=
  { s with
    xmlfileid := (scanFiles a.files s.xmlfileid []).1
    trace := s.trace ++ Event.Get_Filelisting device :: (scanFiles a.files s.xmlfileid []).2 }

/-- Lines 203-231: the fragment fetch and its decoding. The result of
`tmpfile()` (line 204) is passed to `fileno` (line 205) unchecked: on `NULL` the
process is killed there. -/
def fragmentStep (device : DeviceHandle) (a : Answers) (s : State) : Flow :=
  if s.xmlfileid ≠ 0 then
    if a.tmpfileOk = false then Flow.crash s
    else if a.tmpfd ≠ -1 then
      if a.trackRet = 0 then
        if a.mallocOk = false then
          Flow.exit 1 (s.log [Event.Get_Track_To_File_Descriptor device s.xmlfileid a.tmpfd,
            Event.print Output.allocFailed])
        else if 2 ≤ toU32 a.readRet ∧ toU32 a.readRet < XML_BUFSIZE then
          match dump_xml_fragment XML_BUFSIZE a.buf (toU32 a.readRet) s.endianness with
          | some (e, out) =>
            Flow.next
              { s with
                endianness := e
                trace := s.trace ++
                  [Event.Get_Track_To_File_Descriptor device s.xmlfileid a.tmpfd,
                   Event.print Output.xmlHeader,
                   Event.dump_xml_fragment (toU32 a.readRet),
                   Event.print (Output.xml out)] }
          | none =>
            Flow.hang (s.log [Event.Get_Track_To_File_Descriptor device s.xmlfileid a.tmpfd,
              Event.print Output.xmlHeader, Event.dump_xml_fragment (toU32 a.readRet)])
        else
          Flow.next (s.log [Event.Get_Track_To_File_Descriptor device s.xmlfileid a.tmpfd])
      else
        Flow.next (s.log [Event.Get_Track_To_File_Descriptor device s.xmlfileid a.tmpfd,
          Event.Dump_Errorstack device, Event.Clear_Errorstack device])
    else Flow.next s
  else Flow.next s

/-- The body of the `for` loop (lines 122-233), every call of which is issued
against `device`. -/
def probeBody (device : DeviceHandle) (a : Answers) (s : State) : Flow :=
  fragmentStep device a
    (listingStep device a
      (s.log
        ([Event.Dump_Errorstack device, Event.Clear_Errorstack device,
          Event.Dump_Device_Info device]
          ++ namesStep device a ++ batteryStep device a ++ filetypesStep device a
          ++ secureTimeStep device a ++ certificateStep device a)))

/-- The loop `for (iter = device; iter != NULL; iter = iter->next)` of line 121:
the second argument is the part of the list `iter` still has to visit, `i`
counts the iterations, and `answers i` are the answers given during the `i`-th.
The body is run with `device`, the head of the whole list. -/
def walkLoop (device : DeviceHandle) :
    List DeviceHandle → (Nat → Answers) → Nat → State → Flow
  | [], _, _, s => Flow.next s
  | _ :: next, answers, i, s =>
    match probeBody device (answers i) s with
    | Flow.next s1 => walkLoop device next answers (i + 1) s1
    | Flow.exit code s1 => Flow.exit code s1
    | Flow.hang s1 => Flow.hang s1
    | Flow.crash s1 => Flow.crash s1

/-- Lines 120-237: the loop over the list `device` points to, the release of the
list and `exit (0)`. -/
def walk (devices : List DeviceHandle) (answers : Nat → Answers) (s : State) : Flow :=
  match
    (match devices with
      | [] => Flow.next s
      | device :: _ => walkLoop device devices answers 0 s) with
  | Flow.next s1 =>
    Flow.exit 0 (s1.log [Event.Release_Device_List devices.head?, Event.print Output.ok])
  | Flow.exit code s1 => Flow.exit code s1
  | Flow.hang s1 => Flow.hang s1
  | Flow.crash s1 => Flow.crash s1

/-- The device an action is issued against, for the calls that take one. -/
def Event.device? : Event → Option DeviceHandle
  | Event.Dump_Errorstack d => some d
  | Event.Clear_Errorstack d => some d
  | Event.Dump_Device_Info d => some d
  | Event.Get_Friendlyname d => some d
  | Event.Get_Syncpartner d => some d
  | Event.Get_Batterylevel d => some d
  | Event.Get_Supported_Filetypes d => some d
  | Event.Get_Secure_Time d => some d
  | Event.Get_Device_Certificate d => some d
  | Event.Get_Filelisting d => some d
  | Event.Get_Track_To_File_Descriptor d _ _ => some d
  | _ => none

/-- The devices the calls of a trace are issued against, in order. -/
def devicesAddressed (tr : List Event) : List DeviceHandle :=
  tr.filterMap Event.device?

/-- The records released by the `LIBMTP_destroy_file_t` calls of a trace, in order. -/
def releases (tr : List Event) : List FileRecord :=
  tr.filterMap (fun ev =>
    match ev with
    | Event.destroy_file f => some f
    | _ => none)

/-- The identifiers fetched by the `LIBMTP_Get_Track_To_File_Descriptor` calls
of a trace, in order. -/
def fetches (tr : List Event) : List Nat :=
  tr.filterMap (fun ev =>
    match ev with
    | Event.Get_Track_To_File_Descriptor _ id _ => some id
    | _ => none)

/-- The lengths handed to `dump_xml_fragment` by the calls of a trace, in order. -/
def decoderCalls (tr : List Event) : List Nat :=
  tr.filterMap (fun ev =>
    match ev with
    | Event.dump_xml_fragment len => some len
    | _ => none)

/-- The last record of a listing whose name is `"WMPInfo.xml"`. -/
def lastMatch (files : List FileRecord) : Option FileRecord :=
  (files.filter (fun f => decide (f.filename = "WMPInfo.xml"))).getLast?

/-- With the identifier `id` retained, the fragment step stops at line 205:
`tmpfile()` has returned `NULL`. -/
abbrev tmpfileFails (a : Answers) (id : Nat) : Prop :=
  id ≠ 0 ∧ a.tmpfileOk = false

/-- With the identifier `id` retained, the fragment step stops at line 216: the
temporary file has a descriptor, the transfer returns 0 and `malloc` returns
`NULL`. -/
abbrev allocFails (a : Answers) (id : Nat) : Prop :=
  id ≠ 0 ∧ a.tmpfileOk = true ∧ a.tmpfd ≠ -1 ∧ a.trackRet = 0 ∧ a.mallocOk = false

/-- Answers of a device that supports no probe and holds no file. -/
def noAnswers : Answers :=
  { friendlyname := none, syncpartner := none,
    battRet := -1, maxbattlevel := 0, currbattlevel := 0,
    filetypesRet := -1, filetypes := [],
    sectimeRet := -1, sectime := none,
    devcertRet := -1, devcert := none,
    files := [], tmpfileOk := true, tmpfd := 3, trackRet := -1, mallocOk := true, readRet := 0,
    buf := fun _ => 0 }

/-- Answers of a device whose file transfer succeeds and whose `read` returns
`readRet`. -/
def fetchedAnswers (readRet : Int) : Answers :=
  { noAnswers with trackRet := 0, readRet := readRet }

/-- Answers of a device whose listing is `files` and whose probes all fail. -/
def listingAnswers (files : List FileRecord) : Answers :=
  { noAnswers with files := files }

/-- A state in which the identifier 7 is retained. -/
def retainedState : State := { xmlfileid := 7, endianness := Endian.LE, trace := [] }

/-- A state to enter the loop body with: the initial values and an empty trace. -/
def freshState : State := { xmlfileid := 0, endianness := Endian.LE, trace := [] }

/-! ## Lemmas on the decoder -/

/-- The low 8 bits of the assembled unit are its first byte in little-endian
and its second byte in big-endian. -/
theorem toU8_assemble (e : Endian) (b0 b1 : Byte) :
    toU8 (assemble e b0 b1) =
      (match e with
        | Endian.LE => b0
        | Endian.BE => b1) := by
  have key : ∀ x y : Byte, ((x.val <<< 8) ||| y.val) % U16 % 256 = y.val := by
    intro x y
    have hy : y.val < 2 ^ 8 := y.isLt
    have hx : x.val < 256 := x.isLt
    have h : (x.val <<< 8) ||| y.val = 2 ^ 8 * x.val + y.val := by
      rw [Nat.shiftLeft_eq, Nat.mul_comm]
      exact (Nat.mul_add_lt_is_or hy x.val).symm
    rw [h]
    show (2 ^ 8 * x.val + y.val) % 65536 % 256 = y.val
    omega
  cases e
  · apply Fin.ext
    simpa [toU8, assemble] using key b1 b0
  · apply Fin.ext
    simpa [toU8, assemble] using key b0 b1

/-- The loop, started at a cursor below which everything is decoded, on storage
that holds the even-length list `rest` from the cursor to `len`, ends and has
done what the reference decoder does on `rest`. -/
theorem dumpLoop_eq_refDecode (buf : Nat → Byte) (len : Nat) (hlen : len < U32) :
    ∀ (n : Nat) (rest : List Byte) (bp fuel : Nat) (e : Endian) (out : List Byte),
      rest.length = 2 * n → bp + rest.length = len →
      (∀ (i : Nat) (h : i < rest.length), buf (bp + i) = rest.get ⟨i, h⟩) →
      n < fuel →
      dumpLoop buf len fuel bp e out
        = some ((refDecode e rest).1, out ++ (refDecode e rest).2 ++ [newline]) := by
  intro n
  induction n with
  | zero =>
    intro rest bp fuel e out hn hbp _ hf
    have hr : rest = [] := List.length_eq_zero.mp (by omega)
    subst hr
    obtain ⟨f, rfl⟩ : ∃ f, fuel = f + 1 := ⟨fuel - 1, by omega⟩
    have : ¬ bp < len := by simp at hbp; omega
    simp [dumpLoop, refDecode, this]
  | succ n ih =>
    intro rest bp fuel e out hn hbp hbuf hf
    obtain ⟨f, rfl⟩ : ∃ f, fuel = f + 1 := ⟨fuel - 1, by omega⟩
    match rest, hn, hbp, hbuf with
    | [], hn, _, _ => simp at hn
    | [_], hn, _, _ => simp at hn; omega
    | a :: b :: rest1, hn, hbp, hbuf =>
      simp only [List.length_cons] at hn hbp
      have h0 : buf bp = a := by
        have := hbuf 0 (by simp)
        simpa using this
      have h1 : buf (bp + 1) = b := by
        have := hbuf 1 (by simp)
        simpa using this
      have hlt : bp < len := by omega
      have m0 : (bp + 0) % U32 = bp := Nat.mod_eq_of_lt (by omega)
      have m1 : (bp + 1) % U32 = bp + 1 := Nat.mod_eq_of_lt (by omega)
      have m2 : (bp + 2) % U32 = bp + 2 := Nat.mod_eq_of_lt (by omega)
      have hrest : ∀ (i : Nat) (h : i < rest1.length),
          buf (bp + 2 + i) = rest1.get ⟨i, h⟩ := by
        intro i h
        have := hbuf (i + 2) (by simp; omega)
        simpa [Nat.add_assoc, Nat.add_comm 2 i] using this
      have step := fun e1 out1 =>
        ih rest1 (bp + 2) f e1 out1 (by omega) (by omega) hrest (by omega)
      unfold dumpLoop
      rw [if_pos hlt, m0, m1, m2, h0, h1]
      by_cases c1 : a = 0xFF ∧ b = 0xFE
      · rw [if_pos c1, step]
        simp [refDecode, c1]
      · rw [if_neg c1]
        by_cases c2 : a = 0xFE ∧ b = 0xFF
        · rw [if_pos c2, step]
          simp [refDecode, c2]
        · rw [if_neg c2, step, toU8_assemble]
          simp [refDecode, c1, c2]

/-- The reference decoder on a concatenation whose first part has even length. -/
theorem refDecode_append :
    ∀ (n : Nat) (b1 : List Byte), b1.length = 2 * n → ∀ (e : Endian) (b2 : List Byte),
      refDecode e (b1 ++ b2)
        = ((refDecode (refDecode e b1).1 b2).1,
            (refDecode e b1).2 ++ (refDecode (refDecode e b1).1 b2).2) := by
  intro n
  induction n with
  | zero =>
    intro b1 hn e b2
    have hr : b1 = [] := List.length_eq_zero.mp (by omega)
    subst hr
    simp [refDecode]
  | succ n ih =>
    intro b1 hn e b2
    match b1, hn with
    | [], hn => simp at hn
    | [_], hn => simp at hn; omega
    | a :: b :: rest, hn =>
      simp only [List.length_cons] at hn
      have step := fun e1 => ih rest (by omega) e1 b2
      by_cases c1 : a = 0xFF ∧ b = 0xFE
      · simp [refDecode, c1, step]
      · by_cases c2 : a = 0xFE ∧ b = 0xFF
        · simp [refDecode, c1, c2, step]
        · simp [refDecode, c1, c2, step]

/-- The endianness the reference decoder ends in is that of the last
byte-order mark of the buffer, or the one it started in. -/
theorem refDecode_fst_eq_lastBom :
    ∀ (n : Nat) (l : List Byte), l.length ≤ n → ∀ e : Endian,
      (refDecode e l).1 = (lastBom l).getD e := by
  intro n
  induction n with
  | zero =>
    intro l hl e
    have hr : l = [] := List.length_eq_zero.mp (by omega)
    subst hr
    simp [refDecode, lastBom]
  | succ n ih =>
    intro l hl e
    match l, hl with
    | [], _ => simp [refDecode, lastBom]
    | [_], _ => simp [refDecode, lastBom]
    | a :: b :: rest, hl =>
      simp only [List.length_cons] at hl
      have step := fun e1 => ih rest (by omega) e1
      by_cases c1 : a = 0xFF ∧ b = 0xFE
      · cases hb : lastBom rest <;> simp [refDecode, lastBom, c1, step, hb]
      · by_cases c2 : a = 0xFE ∧ b = 0xFF
        · cases hb : lastBom rest <;> simp [refDecode, lastBom, c1, c2, step, hb]
        · cases hb : lastBom rest <;> simp [refDecode, lastBom, c1, c2, step, hb]

/-- The storage `bufOf l` holds `l`. -/
theorem bufOf_get (l : List Byte) (i : Nat) (h : i < l.length) :
    bufOf l (0 + i) = l.get ⟨i, h⟩ := by
  simp [bufOf, List.getElem?_eq_getElem h]

/-- The loop ends for every length the cursor can step past without wrapping:
with `len + 1 < 2 ^ 32`, a fuel above half the distance left is enough. -/
theorem dumpLoop_isSome (buf : Nat → Byte) (len : Nat) (hlen : len + 1 < U32) :
    ∀ (fuel bp : Nat) (e : Endian) (out : List Byte),
      bp ≤ len + 1 → (len + 1 - bp) / 2 < fuel →
      (dumpLoop buf len fuel bp e out).isSome = true := by
  intro fuel
  induction fuel with
  | zero => intro bp e out _ hf; omega
  | succ f ih =>
    intro bp e out hbp hf
    unfold dumpLoop
    by_cases hlt : bp < len
    · have m2 : (bp + 2) % U32 = bp + 2 := Nat.mod_eq_of_lt (by omega)
      rw [if_pos hlt, m2]
      have hb : bp + 2 ≤ len + 1 := by omega
      have hf2 : (len + 1 - (bp + 2)) / 2 < f := by omega
      split
      · exact ih _ _ _ hb hf2
      · split
        · exact ih _ _ _ hb hf2
        · exact ih _ _ _ hb hf2
    · rw [if_neg hlt]
      rfl

/-- A call on storage that holds the even-length list `l` ends and does what the
reference decoder does on `l`. -/
theorem dump_xml_fragment_eq_refDecode (l : List Byte) (buf : Nat → Byte)
    (e : Endian) (fuel : Nat)
    (heven : l.length % 2 = 0) (hlen : l.length < U32)
    (hbuf : ∀ (i : Nat) (h : i < l.length), buf i = l.get ⟨i, h⟩)
    (hfuel : l.length / 2 < fuel) :
    dump_xml_fragment fuel buf l.length e
      = some ((refDecode e l).1, (refDecode e l).2 ++ [newline]) := by
  have h := dumpLoop_eq_refDecode buf l.length hlen (l.length / 2) l 0 fuel e []
    (by omega) (by omega) (fun i hi => by simpa using hbuf i hi) hfuel
  simpa [dump_xml_fragment] using h

/-! ## The claims on the decoder -/

/-- C2: for every buffer `l` of even length (held by the storage `buf`) and
every starting endianness `e`, `dump_xml_fragment` ends, given fuel above half
the length, and writes exactly the characters of the reference decoder of the
specification followed by one newline, leaving the endianness the reference
ends in. -/
theorem dump_xml_fragment_refines_reference (l : List Byte) (buf : Nat → Byte)
    (e : Endian) (fuel : Nat)
    (heven : l.length % 2 = 0) (hlen : l.length < U32)
    (hbuf : ∀ (i : Nat) (h : i < l.length), buf i = l.get ⟨i, h⟩)
    (hfuel : l.length / 2 < fuel) :
    dump_xml_fragment fuel buf l.length e
      = some ((refDecode e l).1, (refDecode e l).2 ++ [newline]) :=
  dump_xml_fragment_eq_refDecode l buf e fuel heven hlen hbuf hfuel

/-- C2, the three examples of the claim: from the little-endian state,
`FF FE 41 00 42 00` yields "AB", `FE FF 00 41 00 42` yields "AB" and `41 00`
yields "A", each followed by the newline. -/
theorem dump_xml_fragment_refines_reference_witness :
    dump_xml_fragment 4 (bufOf [0xFF, 0xFE, 0x41, 0x00, 0x42, 0x00]) 6 Endian.LE
        = some (Endian.LE, [0x41, 0x42, 0x0A])
    ∧ dump_xml_fragment 4 (bufOf [0xFE, 0xFF, 0x00, 0x41, 0x00, 0x42]) 6 Endian.LE
        = some (Endian.BE, [0x41, 0x42, 0x0A])
    ∧ dump_xml_fragment 2 (bufOf [0x41, 0x00]) 2 Endian.LE
        = some (Endian.LE, [0x41, 0x0A]) :=
  ⟨dump_xml_fragment_refines_reference [0xFF, 0xFE, 0x41, 0x00, 0x42, 0x00] _ Endian.LE 4
      (by decide) (by decide) (fun i h => by simpa using bufOf_get _ i h) (by decide),
   dump_xml_fragment_refines_reference [0xFE, 0xFF, 0x00, 0x41, 0x00, 0x42] _ Endian.LE 4
      (by decide) (by decide) (fun i h => by simpa using bufOf_get _ i h) (by decide),
   dump_xml_fragment_refines_reference [0x41, 0x00] _ Endian.LE 2
      (by decide) (by decide) (fun i h => by simpa using bufOf_get _ i h) (by decide)⟩

/-- C3: the endianness persists across calls. For even-length buffers `b1` and
`b2` and every starting endianness `e`, decoding `b1` and then `b2`, the second
call entered with the endianness the first one left, writes (up to the newline
ending each call) the same characters as decoding `b1 ++ b2` in one call; and
each call leaves the endianness of the last byte-order mark of its buffer, or
the one it was entered with when the buffer holds none. -/
theorem dump_xml_fragment_state_persists (b1 b2 : List Byte) (e : Endian) (fuel : Nat)
    (h1 : b1.length % 2 = 0) (h2 : b2.length % 2 = 0)
    (hlen : b1.length + b2.length < U32)
    (hfuel : (b1.length + b2.length) / 2 < fuel) :
    dump_xml_fragment fuel (bufOf b1) b1.length e
        = some ((lastBom b1).getD e, (refDecode e b1).2 ++ [newline])
    ∧ dump_xml_fragment fuel (bufOf b2) b2.length ((lastBom b1).getD e)
        = some ((lastBom b2).getD ((lastBom b1).getD e),
            (refDecode ((lastBom b1).getD e) b2).2 ++ [newline])
    ∧ dump_xml_fragment fuel (bufOf (b1 ++ b2)) (b1 ++ b2).length e
        = some ((lastBom b2).getD ((lastBom b1).getD e),
            (refDecode e b1).2 ++ (refDecode ((lastBom b1).getD e) b2).2 ++ [newline]) := by
  have g1 := dump_xml_fragment_eq_refDecode b1 (bufOf b1) e fuel h1 (by omega)
    (fun i h => by simpa using bufOf_get b1 i h) (by omega)
  have g2 := dump_xml_fragment_eq_refDecode b2 (bufOf b2) ((lastBom b1).getD e) fuel h2
    (by omega) (fun i h => by simpa using bufOf_get b2 i h) (by omega)
  have g3 := dump_xml_fragment_eq_refDecode (b1 ++ b2) (bufOf (b1 ++ b2)) e fuel
    (by simp; omega) (by simp; omega)
    (fun i h => by simpa using bufOf_get (b1 ++ b2) i h) (by simp; omega)
  have f1 := refDecode_fst_eq_lastBom b1.length b1 (Nat.le_refl _) e
  have f2 := refDecode_fst_eq_lastBom b2.length b2 (Nat.le_refl _) ((lastBom b1).getD e)
  have ap := refDecode_append (b1.length / 2) b1 (by omega) e b2
  rw [f1] at g1
  rw [f2] at g2
  rw [ap, f1, f2] at g3
  exact ⟨g1, g2, g3⟩

/-- C3, the example of the claim: decoding `FE FF 00 41` from the little-endian
state yields "A" and leaves big-endian; decoding `00 42` in a second call then
yields "B"; decoding `FE FF 00 41 00 42` in one call yields "AB". -/
theorem dump_xml_fragment_state_persists_witness :
    dump_xml_fragment 4 (bufOf [0xFE, 0xFF, 0x00, 0x41]) 4 Endian.LE
        = some (Endian.BE, [0x41, 0x0A])
    ∧ dump_xml_fragment 4 (bufOf [0x00, 0x42]) 2 Endian.BE
        = some (Endian.BE, [0x42, 0x0A])
    ∧ dump_xml_fragment 4 (bufOf [0xFE, 0xFF, 0x00, 0x41, 0x00, 0x42]) 6 Endian.LE
        = some (Endian.BE, [0x41, 0x42, 0x0A]) :=
  dump_xml_fragment_state_persists [0xFE, 0xFF, 0x00, 0x41] [0x00, 0x42] Endian.LE 4
    (by decide) (by decide) (by decide) (by decide)

/-- C4, the run at the failing input: with length 3 the loop runs a second
time on the unit made of the last byte and of the byte stored at index 3. On
`41 00 42` followed in storage by `00` it writes "AB" where length 2 gives "A";
on `41 00 FE` followed by `FF` it reads a byte-order mark and leaves the
big-endian state, and followed by `00` it writes the byte `FE`. -/
theorem dump_xml_fragment_odd_length_reads_index_len :
    dump_xml_fragment 3 (bufOf [0x41, 0x00, 0x42, 0x00]) 3 Endian.LE
        = some (Endian.LE, [0x41, 0x42, 0x0A])
    ∧ dump_xml_fragment 3 (bufOf [0x41, 0x00, 0x42, 0x00]) 2 Endian.LE
        = some (Endian.LE, [0x41, 0x0A])
    ∧ dump_xml_fragment 3 (bufOf [0x41, 0x00, 0xFE, 0xFF]) 3 Endian.LE
        = some (Endian.BE, [0x41, 0x0A])
    ∧ dump_xml_fragment 3 (bufOf [0x41, 0x00, 0xFE, 0x00]) 3 Endian.LE
        = some (Endian.LE, [0x41, 0xFE, 0x0A]) := by
  decide

/-! ## The battery percentage -/

/-- The search ends at a scale that normalises, when one is in reach. -/
theorem normShiftFrom_spec (a b : Nat) :
    ∀ (fuel k : Nat), b * 2 ^ 23 ≤ a * 2 ^ (k + fuel) →
      b * 2 ^ 23 ≤ a * 2 ^ normShiftFrom a b fuel k := by
  intro fuel
  induction fuel with
  | zero => intro k h; simpa [normShiftFrom] using h
  | succ f ih =>
    intro k h
    unfold normShiftFrom
    split
    · assumption
    · exact ih (k + 1) (by simpa [Nat.add_assoc, Nat.add_comm 1 f] using h)

/-- The search ends at its start or just above a scale that does not normalise. -/
theorem normShiftFrom_min (a b : Nat) :
    ∀ (fuel k : Nat), normShiftFrom a b fuel k = k ∨
      (0 < normShiftFrom a b fuel k ∧ ¬ b * 2 ^ 23 ≤ a * 2 ^ (normShiftFrom a b fuel k - 1)) := by
  intro fuel
  induction fuel with
  | zero => intro k; exact Or.inl rfl
  | succ f ih =>
    intro k
    unfold normShiftFrom
    split
    · exact Or.inl rfl
    · rename_i hk
      rcases ih (k + 1) with h | h
      · right
        rw [h]
        exact ⟨by omega, by simpa using hk⟩
      · exact Or.inr h

/-- For `uint8_t` operands the scale found normalises the quotient. -/
theorem normShift_spec (a b : Nat) (ha : 0 < a) (hb : b ≤ 255) :
    b * 2 ^ 23 ≤ a * 2 ^ normShift a b := by
  apply normShiftFrom_spec
  norm_num
  omega

/-- The significand of the binary32 quotient of two non-zero `uint8_t` values
has 24 bits (or is `2 ^ 24` after rounding up), so that its product by 100 is
below `2 ^ 53` and exact in binary64. -/
theorem f32_div_mant_bounds (a b : Nat) (ha : 0 < a) (ha2 : a ≤ 255) (hb : 0 < b)
    (hb2 : b ≤ 255) :
    2 ^ 23 ≤ (f32_div a b).mant ∧ (f32_div a b).mant ≤ 2 ^ 24
      ∧ (f64_mul100 (f32_div a b)).mant < 2 ^ 53 := by
  have hs := normShift_spec a b ha hb2
  have hmin := normShiftFrom_min a b 31 0
  have hk : 0 < normShift a b ∧ ¬ b * 2 ^ 23 ≤ a * 2 ^ (normShift a b - 1) := by
    rcases hmin with h | h
    · exfalso
      have h0 : normShift a b = 0 := h
      rw [h0] at hs
      norm_num at hs
      omega
    · exact h
  obtain ⟨kpos, hnot⟩ := hk
  have hpow : 2 ^ normShift a b = 2 * 2 ^ (normShift a b - 1) := by
    rw [← Nat.pow_succ']
    congr 1
    omega
  generalize hX : 2 ^ normShift a b = X at hs hpow
  generalize hY : 2 ^ (normShift a b - 1) = Y at hnot hpow
  have hlow : 2 ^ 23 ≤ a * X / b := by
    rw [Nat.le_div_iff_mul_le hb]
    simpa [Nat.mul_comm] using hs
  have hhigh : a * X / b < 2 ^ 24 := by
    rw [Nat.div_lt_iff_lt_mul hb]
    have : a * X = 2 * (a * Y) := by rw [hpow]; ring
    norm_num at hnot ⊢
    omega
  have hmod : (a * X / b) % 2 ≤ 1 := by omega
  have hm : (f32_div a b).mant = (if 2 * (a * X % b) < b then a * X / b
      else if 2 * (a * X % b) = b then a * X / b + a * X / b % 2 else a * X / b + 1) := by
    simp [f32_div, Nat.pos_iff_ne_zero.mp ha, hX]
  have h1 : a * X / b ≤ (f32_div a b).mant := by
    rw [hm]; split
    · exact Nat.le_refl _
    · split <;> omega
  have h2 : (f32_div a b).mant ≤ a * X / b + 1 := by
    rw [hm]; split
    · omega
    · split <;> omega
  have h3 : (f64_mul100 (f32_div a b)).mant = (f32_div a b).mant * 100 := rfl
  norm_num at hlow hhigh ⊢
  omega

/-- Exact arithmetic behind the upper bound: a value truncated from a quotient
rounded by at most one unit does not exceed `100 * a / b`. -/
theorem percent_upper (a b X q r M p : Nat) (ha : a ≤ 255) (hX : b * 8388608 ≤ a * X)
    (hdiv : q * b + r = a * X) (hM : M ≤ q + 1) (hp : p * X ≤ M * 100) (hb : 0 < b) :
    p * b ≤ 100 * a := by
  by_contra hcon
  have h1 : 100 * a + 1 ≤ p * b := by omega
  have h2 : (100 * a + 1) * X ≤ p * b * X := Nat.mul_le_mul_right X h1
  have h3 : p * X * b ≤ M * 100 * b := Nat.mul_le_mul_right b hp
  have h4 : M * 100 * b ≤ (q + 1) * 100 * b :=
    Nat.mul_le_mul_right b (Nat.mul_le_mul_right 100 hM)
  have h5 : a * X ≤ 255 * X := Nat.mul_le_mul_right X ha
  have e1 : p * b * X = p * X * b := by ring
  have e2 : (q + 1) * 100 * b = 100 * (q * b) + 100 * b := by ring
  have e3 : (100 * a + 1) * X = 100 * (a * X) + X := by ring
  omega

/-- Exact arithmetic behind the lower bound: the truncated value is at most one
below `100 * a / b`. -/
theorem percent_lower (a b X q r M p F : Nat) (ha : a ≤ 255) (hX : b * 8388608 ≤ a * X)
    (hdiv : q * b + r = a * X) (hr : r < b) (hM : q ≤ M) (hp : M * 100 < (p + 1) * X)
    (hF : F * b ≤ 100 * a) :
    F ≤ p + 1 := by
  by_contra hcon
  have h1 : p + 2 ≤ F := by omega
  have h2 : (p + 2) * b ≤ F * b := Nat.mul_le_mul_right b h1
  have h3 : (p + 2) * b * X ≤ 100 * a * X := Nat.mul_le_mul_right X (le_trans h2 hF)
  have h4 : q * 100 * b ≤ M * 100 * b :=
    Nat.mul_le_mul_right b (Nat.mul_le_mul_right 100 hM)
  have h5 : M * 100 * b < (p + 1) * X * b := Nat.mul_lt_mul_of_pos_right hp (by omega)
  have h6 : a * X ≤ 255 * X := Nat.mul_le_mul_right X ha
  have e1 : (p + 2) * b * X = (p + 1) * X * b + X * b := by ring
  have e2 : 100 * a * X = 100 * (q * b) + 100 * r := by rw [Nat.mul_assoc, ← hdiv]; ring
  have e3 : q * 100 * b = 100 * (q * b) := by ring
  have h7 : X * b < 100 * b := by omega
  have h8 : X < 100 := Nat.lt_of_mul_lt_mul_right h7
  omega

/-- C5, as the code has it: for every battery reading of two `uint8_t` values
with `max > 0` the percentage printed is defined; it is the single-precision
quotient times 100 truncated toward zero, which is `100 * current / max`
rounded down or one less than that; and it lies in `[0, 100]` whenever
`current ≤ max`. -/
theorem battery_percent_truncates (current max : Byte) (hmax : 0 < max.val) :
    ∃ p : Nat, battery_percent current max = some p
      ∧ p ≤ 100 * current.val / max.val
      ∧ 100 * current.val / max.val ≤ p + 1
      ∧ (current.val ≤ max.val → p ≤ 100) := by
  have ha2 : current.val ≤ 255 := by have := current.isLt; omega
  have hb2 : max.val ≤ 255 := by have := max.isLt; omega
  have hne : ¬ max.val = 0 := by omega
  refine ⟨truncToInt (f64_mul100 (f32_div current.val max.val)),
    by simp [battery_percent, hne], ?_⟩
  by_cases ha : current.val = 0
  · have h0 : truncToInt (f64_mul100 (f32_div current.val max.val)) = 0 := by
      simp [truncToInt, f64_mul100, f32_div, ha]
    rw [h0, ha]
    simp
  · have hs := normShift_spec current.val max.val (by omega) hb2
    have hm : (f32_div current.val max.val).mant
        = (if 2 * (current.val * 2 ^ normShift current.val max.val % max.val) < max.val then
            current.val * 2 ^ normShift current.val max.val / max.val
          else if 2 * (current.val * 2 ^ normShift current.val max.val % max.val) = max.val then
            current.val * 2 ^ normShift current.val max.val / max.val
              + current.val * 2 ^ normShift current.val max.val / max.val % 2
          else current.val * 2 ^ normShift current.val max.val / max.val + 1) := by
      simp [f32_div, ha]
    have hsc : (f32_div current.val max.val).scale = normShift current.val max.val := by
      simp [f32_div, ha]
    have hp : truncToInt (f64_mul100 (f32_div current.val max.val))
        = (f32_div current.val max.val).mant * 100 / 2 ^ normShift current.val max.val := by
      simp [truncToInt, f64_mul100, hsc]
    generalize (f32_div current.val max.val).mant = M at hm hp
    generalize truncToInt (f64_mul100 (f32_div current.val max.val)) = p at hp
    generalize 2 ^ normShift current.val max.val = X at hs hm hp
    have hXpos : 0 < X := by
      rcases Nat.eq_zero_or_pos X with h | h
      · rw [h] at hs; omega
      · exact h
    generalize hq : current.val * X / max.val = q at hm
    generalize hr : current.val * X % max.val = r at hm
    have hdiv : q * max.val + r = current.val * X := by
      rw [← hq, ← hr, Nat.mul_comm]
      exact Nat.div_add_mod _ _
    have hrlt : r < max.val := by rw [← hr]; exact Nat.mod_lt _ hmax
    have hM1 : q ≤ M := by
      rw [hm]; split
      · exact Nat.le_refl _
      · split <;> omega
    have hM2 : M ≤ q + 1 := by
      rw [hm]; split
      · omega
      · split <;> omega
    have hp1 : p * X ≤ M * 100 := by rw [hp]; exact Nat.div_mul_le_self _ _
    have hp2 : M * 100 < (p + 1) * X := by
      have h := Nat.lt_mul_div_succ (M * 100) hXpos
      rw [Nat.mul_comm X] at h
      rw [hp]
      exact h
    have hs2 : max.val * 8388608 ≤ current.val * X := by simpa using hs
    have up : p ≤ 100 * current.val / max.val := by
      rw [Nat.le_div_iff_mul_le hmax]
      exact percent_upper current.val max.val X q r M p ha2 hs2 hdiv hM2 hp1 hmax
    have low : 100 * current.val / max.val ≤ p + 1 :=
      percent_lower current.val max.val X q r M p _ ha2 hs2 hdiv hrlt hM1 hp2
        (Nat.div_mul_le_self _ _)
    refine ⟨up, low, fun hle => le_trans up ?_⟩
    apply Nat.div_le_of_le_mul
    omega

/-- C5 at the reading `(2, 3)`: the percentage printed is 66. -/
theorem battery_percent_truncates_witness :
    ∃ p : Nat, battery_percent 2 3 = some p
      ∧ p ≤ 100 * 2 / 3 ∧ 100 * 2 / 3 ≤ p + 1 ∧ ((2 : Nat) ≤ 3 → p ≤ 100) :=
  battery_percent_truncates 2 3 (by decide)

/-- C5 fails as stated: the reading `(2, 3)` prints 66 where rounding gives 67,
the reading `(29, 100)` prints 28 where the exact percentage is 29, and the
reading `(255, 1)` prints 25500, outside `[0, 100]`. -/
theorem battery_percent_not_rounded_nor_bounded :
    battery_percent 2 3 = some 66 ∧ roundPercent 2 3 = 67
    ∧ battery_percent 29 100 = some 28 ∧ roundPercent 29 100 = 29
    ∧ battery_percent 255 1 = some 25500 := by
  decide

/-! ## The session walker -/

/-- The scan releases every record it visits, after those released before. -/
theorem scanFiles_snd :
    ∀ (files : List FileRecord) (id : Nat) (tr : List Event),
      (scanFiles files id tr).2 = tr ++ files.map Event.destroy_file := by
  intro files
  induction files with
  | nil => intro id tr; simp [scanFiles]
  | cons f rest ih => intro id tr; simp [scanFiles, ih]

/-- The identifier the scan retains is that of the last matching record, or the
one held before when no record matches. -/
theorem scanFiles_fst :
    ∀ (files : List FileRecord) (id : Nat) (tr : List Event),
      (scanFiles files id tr).1 = ((lastMatch files).map FileRecord.item_id).getD id := by
  intro files
  induction files with
  | nil => intro id tr; simp [scanFiles, lastMatch]
  | cons f rest ih =>
    intro id tr
    have hrest := ih
    unfold lastMatch at hrest ⊢
    by_cases hf : f.filename = "WMPInfo.xml"
    · simp only [scanFiles, hf, if_true, List.filter_cons, decide_True, List.getLast?_cons]
      rw [hrest]
      cases (List.filter (fun f => decide (f.filename = "WMPInfo.xml")) rest).getLast? <;> simp
    · simp only [scanFiles, hf, if_false, List.filter_cons, decide_False]
      rw [hrest]
      simp

/-- The release calls of a trace followed by more actions. -/
theorem releases_append (t1 t2 : List Event) :
    releases (t1 ++ t2) = releases t1 ++ releases t2 := by
  simp [releases]

/-- The release calls among release calls are all of them. -/
theorem releases_map_destroy (files : List FileRecord) :
    releases (files.map Event.destroy_file) = files := by
  induction files with
  | nil => rfl
  | cons f rest ih =>
    have : releases (Event.destroy_file f :: rest.map Event.destroy_file)
        = f :: releases (rest.map Event.destroy_file) := rfl
    simpa [ih] using this

/-- In every other case the fragment step ends and control goes on, the
identifier retained being kept. -/
theorem fragmentStep_next (device : DeviceHandle) (a : Answers) (s : State)
    (hc : ¬ tmpfileFails a s.xmlfileid) (he : ¬ allocFails a s.xmlfileid) :
    ∃ s1, fragmentStep device a s = Flow.next s1 ∧ s1.xmlfileid = s.xmlfileid := by
  unfold fragmentStep
  by_cases h1 : s.xmlfileid ≠ 0
  · rw [if_pos h1]
    by_cases h0 : a.tmpfileOk = false
    · exact absurd (And.intro h1 h0) hc
    · rw [if_neg h0]
      by_cases h2 : a.tmpfd ≠ -1
      · rw [if_pos h2]
        by_cases h3 : a.trackRet = 0
        · rw [if_pos h3]
          by_cases h4 : a.mallocOk = false
          · exact absurd ⟨h1, by simpa using h0, h2, h3, h4⟩ he
          · rw [if_neg h4]
            by_cases h5 : 2 ≤ toU32 a.readRet ∧ toU32 a.readRet < XML_BUFSIZE
            · rw [if_pos h5]
              have hsome := dumpLoop_isSome a.buf (toU32 a.readRet)
                (by
                  have := h5.2
                  simp only [XML_BUFSIZE] at this
                  show toU32 a.readRet + 1 < 4294967296
                  omega)
                XML_BUFSIZE 0 s.endianness [] (Nat.zero_le _)
                (by have := h5.2; simp only [XML_BUFSIZE] at this ⊢; omega)
              obtain ⟨r, hr⟩ := Option.isSome_iff_exists.mp hsome
              obtain ⟨e, out⟩ := r
              have hd : dump_xml_fragment XML_BUFSIZE a.buf (toU32 a.readRet) s.endianness
                  = some (e, out) := hr
              rw [hd]
              exact ⟨_, rfl, rfl⟩
            · rw [if_neg h5]
              exact ⟨_, rfl, rfl⟩
        · rw [if_neg h3]
          exact ⟨_, rfl, rfl⟩
      · rw [if_neg h2]
        exact ⟨_, rfl, rfl⟩
  · rw [if_neg h1]
    exact ⟨_, rfl, rfl⟩

/-- The probes that precede the file listing release no record and fetch no
file. -/
theorem probes_release_and_fetch_nothing (device : DeviceHandle) (a : Answers) :
    releases ([Event.Dump_Errorstack device, Event.Clear_Errorstack device,
          Event.Dump_Device_Info device]
          ++ namesStep device a ++ batteryStep device a ++ filetypesStep device a
          ++ secureTimeStep device a ++ certificateStep device a) = []
    ∧ fetches ([Event.Dump_Errorstack device, Event.Clear_Errorstack device,
          Event.Dump_Device_Info device]
          ++ namesStep device a ++ batteryStep device a ++ filetypesStep device a
          ++ secureTimeStep device a ++ certificateStep device a) = [] := by
  have hb : releases (batteryStep device a) = [] ∧ fetches (batteryStep device a) = [] := by
    unfold batteryStep
    split <;> exact ⟨rfl, rfl⟩
  have hf : releases (filetypesStep device a) = []
      ∧ fetches (filetypesStep device a) = [] := by
    unfold filetypesStep
    split
    · constructor
      · simp [releases, List.filterMap_map, Function.comp_def]
      · simp [fetches, List.filterMap_map, Function.comp_def]
    · exact ⟨rfl, rfl⟩
  have hs : releases (secureTimeStep device a) = []
      ∧ fetches (secureTimeStep device a) = [] := by
    unfold secureTimeStep
    split <;> exact ⟨rfl, rfl⟩
  have hc : releases (certificateStep device a) = []
      ∧ fetches (certificateStep device a) = [] := by
    unfold certificateStep
    split <;> exact ⟨rfl, rfl⟩
  have hn : releases (namesStep device a) = [] ∧ fetches (namesStep device a) = [] :=
    ⟨rfl, rfl⟩
  constructor
  · simp only [releases, List.filterMap_append] at hb hf hs hc hn ⊢
    rw [hb.1, hf.1, hs.1, hc.1, hn.1]
    rfl
  · simp only [fetches, List.filterMap_append] at hb hf hs hc hn ⊢
    rw [hb.2, hf.2, hs.2, hc.2, hn.2]
    rfl

/-- The fragment step releases no record. -/
theorem fragmentStep_releases (device : DeviceHandle) (a : Answers) (s : State) :
    releases (fragmentStep device a s).state.trace = releases s.trace := by
  unfold fragmentStep
  split_ifs
  · rfl
  · simp [Flow.state, State.log, releases]
  · split <;> simp [Flow.state, State.log, releases]
  · simp [Flow.state, State.log, releases]
  · simp [Flow.state, State.log, releases]
  · rfl
  · rfl

/-- The fragment step fetches the retained identifier when it is not `0`, the
temporary file exists and has a descriptor, and nothing otherwise. -/
theorem fragmentStep_fetches (device : DeviceHandle) (a : Answers) (s : State) :
    fetches (fragmentStep device a s).state.trace
      = fetches s.trace
        ++ (if s.xmlfileid ≠ 0 ∧ a.tmpfileOk = true ∧ a.tmpfd ≠ -1 then [s.xmlfileid]
            else []) := by
  unfold fragmentStep
  by_cases h1 : s.xmlfileid ≠ 0
  · by_cases h0 : a.tmpfileOk = false
    · have hr : (if s.xmlfileid ≠ 0 ∧ a.tmpfileOk = true ∧ a.tmpfd ≠ -1 then [s.xmlfileid]
          else []) = [] := if_neg (fun h => by simp [h0] at h)
      rw [if_pos h1, if_pos h0, hr]
      simp [Flow.state]
    · have h0t : a.tmpfileOk = true := by simpa using h0
      by_cases h2 : a.tmpfd ≠ -1
      · have hr : (if s.xmlfileid ≠ 0 ∧ a.tmpfileOk = true ∧ a.tmpfd ≠ -1 then [s.xmlfileid]
            else []) = [s.xmlfileid] := if_pos ⟨h1, h0t, h2⟩
        rw [if_pos h1, if_neg h0, if_pos h2, hr]
        by_cases h3 : a.trackRet = 0
        · rw [if_pos h3]
          by_cases h4 : a.mallocOk = false
          · rw [if_pos h4]
            simp [Flow.state, State.log, fetches]
          · rw [if_neg h4]
            by_cases h5 : 2 ≤ toU32 a.readRet ∧ toU32 a.readRet < XML_BUFSIZE
            · rw [if_pos h5]
              cases hd : dump_xml_fragment XML_BUFSIZE a.buf (toU32 a.readRet) s.endianness with
              | none => simp [Flow.state, State.log, fetches]
              | some r =>
                obtain ⟨e, out⟩ := r
                simp [Flow.state, fetches]
            · rw [if_neg h5]
              simp [Flow.state, State.log, fetches]
        · rw [if_neg h3]
          simp [Flow.state, State.log, fetches]
      · have hr : (if s.xmlfileid ≠ 0 ∧ a.tmpfileOk = true ∧ a.tmpfd ≠ -1 then [s.xmlfileid]
            else []) = [] := if_neg (fun h => h2 h.2.2)
        rw [if_pos h1, if_neg h0, if_neg h2, hr]
        simp [Flow.state]
  · have hr : (if s.xmlfileid ≠ 0 ∧ a.tmpfileOk = true ∧ a.tmpfd ≠ -1 then [s.xmlfileid]
        else []) = [] := if_neg (fun h => h1 h.1)
    rw [if_neg h1, hr]
    simp [Flow.state]

/-- C1, the run at the failing input: on the list of the two devices 10 and 20,
with devices that support no probe, the walk runs its probe sequence twice, and
every call of both iterations is issued against device 10, the head of the
list; no call is issued against device 20. -/
theorem walk_probes_only_first_device :
    devicesAddressed (walk [10, 20] (fun _ => noAnswers) freshState).state.trace
        = List.replicate 30 10
    ∧ (walk [10, 20] (fun _ => noAnswers) freshState).state.trace.filter
          (fun ev => decide (ev = Event.Dump_Device_Info 10))
        = [Event.Dump_Device_Info 10, Event.Dump_Device_Info 10]
    ∧ Event.Dump_Device_Info 20
        ∉ (walk [10, 20] (fun _ => noAnswers) freshState).state.trace := by
  decide

/-- C6, the run at the failing input: a battery probe that returns success with
the levels `(5, 0)` takes the success branch and prints the battery line, whose
percentage is the undefined conversion of `5.0 / 0.0 * 100.0`; it does not take
the path of a failed probe, which clears the error stack and prints nothing. -/
theorem batteryStep_zero_max_prints :
    batteryStep 10 { noAnswers with battRet := 0, maxbattlevel := 0, currbattlevel := 5 }
        = [Event.Get_Batterylevel 10, Event.print (Output.battery 5 0 none)]
    ∧ batteryStep 10 { noAnswers with battRet := -1, maxbattlevel := 0, currbattlevel := 5 }
        = [Event.Get_Batterylevel 10, Event.Clear_Errorstack 10] := by
  decide

/-- C7: for every file listing, of any length and with or without a record
named `"WMPInfo.xml"`, the scan issues its release calls right after the listing
call, one per record and in listing order; and over the whole loop body the
records released are exactly the records of the listing, each once, in order. -/
theorem listing_releases_every_record (device : DeviceHandle) (a : Answers) (s : State) :
    (listingStep device a s).trace
        = s.trace ++ Event.Get_Filelisting device :: a.files.map Event.destroy_file
    ∧ releases (probeBody device a s).state.trace = releases s.trace ++ a.files := by
  constructor
  · simp [listingStep, scanFiles_snd]
  · unfold probeBody
    rw [fragmentStep_releases]
    simp only [listingStep, scanFiles_snd, State.log, List.nil_append]
    rw [releases_append, releases_append, (probes_release_and_fetch_nothing device a).1]
    have : releases (Event.Get_Filelisting device :: a.files.map Event.destroy_file)
        = releases (a.files.map Event.destroy_file) := rfl
    rw [this, releases_map_destroy]
    simp

/-- C8: after a successful fragment fetch (an identifier is retained, the
temporary file exists and has a descriptor, the transfer returns 0 and the
buffer is allocated) the step goes on, and it calls the decoder exactly when
the byte count `n`, the result of `read` stored in a `uint32_t`, satisfies
`2 ≤ n < 65536`; the length handed over is `n`. -/
theorem fragmentStep_decodes_iff (device : DeviceHandle) (a : Answers) (s : State)
    (hid : s.xmlfileid ≠ 0) (htmp : a.tmpfileOk = true) (hfd : a.tmpfd ≠ -1)
    (htrack : a.trackRet = 0) (hmalloc : a.mallocOk = true) :
    ∃ s1, fragmentStep device a s = Flow.next s1
      ∧ decoderCalls s1.trace
          = decoderCalls s.trace
            ++ (if 2 ≤ toU32 a.readRet ∧ toU32 a.readRet < 65536 then [toU32 a.readRet]
                else []) := by
  obtain ⟨s1, h, _⟩ := fragmentStep_next device a s
    (fun hc => by have h := hc.2; rw [htmp] at h; exact absurd h (by decide))
    (fun he => by have h := he.2.2.2.2; rw [hmalloc] at h; exact absurd h (by decide))
  refine ⟨s1, h, ?_⟩
  have hs : s1 = (fragmentStep device a s).state := by rw [h]; rfl
  rw [hs]
  unfold fragmentStep
  rw [if_pos hid, if_neg (by simp [htmp]), if_pos hfd, if_pos htrack,
    if_neg (by simp [hmalloc])]
  by_cases h5 : 2 ≤ toU32 a.readRet ∧ toU32 a.readRet < 65536
  · have h5b : 2 ≤ toU32 a.readRet ∧ toU32 a.readRet < XML_BUFSIZE := h5
    rw [if_pos h5, if_pos h5b]
    split <;> simp [Flow.state, State.log, decoderCalls]
  · have h5b : ¬ (2 ≤ toU32 a.readRet ∧ toU32 a.readRet < XML_BUFSIZE) := h5
    rw [if_neg h5, if_neg h5b]
    simp [Flow.state, State.log, decoderCalls]

/-- C8 at the boundaries of the claim: a count of 65535 is decoded with length
65535; counts of 65536, 1 and 0 and a failed `read` (`-1`) are not decoded. -/
theorem fragmentStep_decodes_iff_witness :
    (∃ s1, fragmentStep 10 (fetchedAnswers 65535) retainedState = Flow.next s1
        ∧ decoderCalls s1.trace = [65535])
    ∧ (∃ s1, fragmentStep 10 (fetchedAnswers 2) retainedState = Flow.next s1
        ∧ decoderCalls s1.trace = [2])
    ∧ (∃ s1, fragmentStep 10 (fetchedAnswers 65536) retainedState = Flow.next s1
        ∧ decoderCalls s1.trace = [])
    ∧ (∃ s1, fragmentStep 10 (fetchedAnswers 1) retainedState = Flow.next s1
        ∧ decoderCalls s1.trace = [])
    ∧ (∃ s1, fragmentStep 10 (fetchedAnswers 0) retainedState = Flow.next s1
        ∧ decoderCalls s1.trace = [])
    ∧ (∃ s1, fragmentStep 10 (fetchedAnswers (-1)) retainedState = Flow.next s1
        ∧ decoderCalls s1.trace = []) :=
  ⟨fragmentStep_decodes_iff 10 (fetchedAnswers 65535) retainedState
      (by decide) (by decide) (by decide) (by decide) (by decide),
   fragmentStep_decodes_iff 10 (fetchedAnswers 2) retainedState
      (by decide) (by decide) (by decide) (by decide) (by decide),
   fragmentStep_decodes_iff 10 (fetchedAnswers 65536) retainedState
      (by decide) (by decide) (by decide) (by decide) (by decide),
   fragmentStep_decodes_iff 10 (fetchedAnswers 1) retainedState
      (by decide) (by decide) (by decide) (by decide) (by decide),
   fragmentStep_decodes_iff 10 (fetchedAnswers 0) retainedState
      (by decide) (by decide) (by decide) (by decide) (by decide),
   fragmentStep_decodes_iff 10 (fetchedAnswers (-1)) retainedState
      (by decide) (by decide) (by decide) (by decide) (by decide)⟩

/-- The fetch calls of a trace followed by more actions. -/
theorem fetches_append (t1 t2 : List Event) :
    fetches (t1 ++ t2) = fetches t1 ++ fetches t2 := by
  simp [fetches]

/-- Release calls fetch nothing. -/
theorem fetches_map_destroy (files : List FileRecord) :
    fetches (files.map Event.destroy_file) = [] := by
  induction files with
  | nil => rfl
  | cons f rest ih =>
    have : fetches (Event.destroy_file f :: rest.map Event.destroy_file)
        = fetches (rest.map Event.destroy_file) := rfl
    simpa [ih] using this

/-- C10, as the code has it: in a loop iteration entered with no identifier
retained (`xmlfileid = 0`, as in the first iteration), the fragment fetch is
issued exactly when the listing of that iteration holds a record named
`"WMPInfo.xml"`, the last such record has a non-zero identifier and the
temporary file exists and has a descriptor; the identifier fetched is that of
the last matching record; with an empty listing or no matching record nothing
is fetched. -/
theorem probeBody_fetches_last_match (device : DeviceHandle) (a : Answers) (s : State)
    (h0 : s.xmlfileid = 0) :
    fetches (probeBody device a s).state.trace
      = fetches s.trace ++
          (match lastMatch a.files with
            | some f =>
              if f.item_id ≠ 0 ∧ a.tmpfileOk = true ∧ a.tmpfd ≠ -1 then [f.item_id] else []
            | none => []) := by
  unfold probeBody
  rw [fragmentStep_fetches]
  have hid : (listingStep device a
      (s.log ([Event.Dump_Errorstack device, Event.Clear_Errorstack device,
          Event.Dump_Device_Info device]
          ++ namesStep device a ++ batteryStep device a ++ filetypesStep device a
          ++ secureTimeStep device a ++ certificateStep device a))).xmlfileid
      = ((lastMatch a.files).map FileRecord.item_id).getD 0 := by
    simp [listingStep, State.log, scanFiles_fst, h0]
  have htr : fetches (listingStep device a
      (s.log ([Event.Dump_Errorstack device, Event.Clear_Errorstack device,
          Event.Dump_Device_Info device]
          ++ namesStep device a ++ batteryStep device a ++ filetypesStep device a
          ++ secureTimeStep device a ++ certificateStep device a))).trace
      = fetches s.trace := by
    simp only [listingStep, scanFiles_snd, State.log, List.nil_append]
    rw [fetches_append, fetches_append, (probes_release_and_fetch_nothing device a).2]
    have : fetches (Event.Get_Filelisting device :: a.files.map Event.destroy_file)
        = fetches (a.files.map Event.destroy_file) := rfl
    rw [this, fetches_map_destroy]
    simp
  rw [hid, htr]
  cases lastMatch a.files with
  | none => simp
  | some f => simp

/-- C10 at a first iteration whose listing holds `WMPInfo.xml` under the
identifier 7 after another file: the identifier 7 is fetched. -/
theorem probeBody_fetches_last_match_witness :
    fetches (probeBody 10
        (listingAnswers [{ item_id := 3, filename := "a.mp3" },
          { item_id := 7, filename := "WMPInfo.xml" }]) freshState).state.trace
      = [7] :=
  probeBody_fetches_last_match 10
    (listingAnswers [{ item_id := 3, filename := "a.mp3" },
      { item_id := 7, filename := "WMPInfo.xml" }]) freshState rfl

/-- C10 fails as stated: in a first iteration whose listing holds a record named
`"WMPInfo.xml"` with the identifier 0, nothing is fetched. -/
theorem probeBody_match_with_id_zero_not_fetched :
    (∃ f ∈ (listingAnswers [{ item_id := 0, filename := "WMPInfo.xml" }]).files,
        f.filename = "WMPInfo.xml")
    ∧ fetches (probeBody 10
        (listingAnswers [{ item_id := 0, filename := "WMPInfo.xml" }]) freshState).state.trace
      = [] := by
  refine ⟨⟨{ item_id := 0, filename := "WMPInfo.xml" }, by simp [listingAnswers], rfl⟩, ?_⟩
  decide

/-- The identifier retained in one iteration is fetched again in the next: on
two devices, the first listing holding `WMPInfo.xml` under the identifier 7 and
the second listing being empty, the walk fetches the identifier 7 twice, both
times from device 10. -/
theorem walk_refetches_retained_identifier :
    (walk [10, 20]
        (fun i => if i = 0 then
            { listingAnswers [{ item_id := 7, filename := "WMPInfo.xml" }] with trackRet := -1 }
          else { listingAnswers [] with trackRet := -1 })
        freshState).state.trace.filter
          (fun ev => decide (ev = Event.Get_Track_To_File_Descriptor 10 7 3))
      = [Event.Get_Track_To_File_Descriptor 10 7 3,
         Event.Get_Track_To_File_Descriptor 10 7 3] := by
  decide

end Detect
